import Mathlib

/-!
Shallow embedding of the IBAN core of the rustpay repository
(src/iban/mod.rs, src/iban/from_implementations.rs, src/error.rs).

Strings are modelled as lists of characters; Rust byte strings and
byte lengths are modelled through UTF-8 byte sizes (Char.utf8Size),
so that the byte-level checks of the source are rendered faithfully.
Bytes are modelled as natural numbers below 256.
-/

deriving instance DecidableEq for Except

/-- Error kinds from src/error.rs (the two kinds the IBAN core raises). -/
inductive Error where
  | NotAnIBAN
  | WrongIBANSize
  deriving DecidableEq

/-- Deserialization error raised by the serde visitor in mod.rs
(E.invalid_length carries the offending byte length). -/
inductive DeError where
  | invalidLength (got : Nat)
  deriving DecidableEq

/-- The canonical IBAN buffer: exactly 34 character slots
(struct IBAN([char; 34]) in mod.rs). -/
def IBAN := {l : List Char // l.length = 34}

instance : DecidableEq IBAN :=
  inferInstanceAs (DecidableEq {l : List Char // l.length = 34})

/-- Rust's char::is_ascii: the code point is at most 127. -/
def isAsciiChar (c : Char) : Bool := c.toNat ≤ 127

/-- Byte length of a string, as Rust's String::len / str::len
(sum of the UTF-8 sizes of the characters). -/
def strByteLen (s : List Char) : Nat := (s.map Char.utf8Size).sum

/-- Pad a character list with NUL slots on the right up to exactly 34 slots.
For inputs of at most 34 characters this is the buffer-filling loop of the
constructors: the input characters in order, then NUL padding. -/
def padTo34 (l : List Char) : List Char := (l ++ List.replicate 34 '\x00').take 34

/-- The 34-slot buffer with the given characters placed from the left. -/
def mkIBAN (l : List Char) : IBAN :=
  ⟨padTo34 l, by
    simp only [padTo34, List.length_take, List.length_append, List.length_replicate]
    omega⟩

/-- IBAN::new — all 34 slots set to NUL. -/
def IBAN.new : IBAN := ⟨List.replicate 34 '\x00', by simp⟩

/-- IBAN::len — counts the characters before the first NUL slot
(the loop breaks at the first NUL). -/
def IBAN.len (b : IBAN) : Nat := (b.val.takeWhile (fun c => c ≠ '\x00')).length

/-- The non-padding content of a buffer: the slots before the first NUL.
This is the spec's notion of content; IBAN.len is its length. -/
def IBAN.content (b : IBAN) : List Char := b.val.takeWhile (fun c => c ≠ '\x00')

/-- IBAN::to_string — collects the slots that satisfy char::is_ascii.
Note that the NUL padding slot is itself an ASCII character, so padding
slots pass this filter. -/
def IBAN.toString (b : IBAN) : List Char := b.val.filter isAsciiChar

/-- The IBAN_LENGTHS table of mod.rs: expected total IBAN length by
two-letter country code (63 entries, values copied verbatim). -/
def IBAN_LENGTHS : List (List Char × Nat) :=
  [ (['A','L'], 28), (['A','D'], 24), (['A','T'], 20), (['A','Z'], 28),
    (['B','H'], 22), (['B','E'], 16), (['B','A'], 20), (['B','R'], 29),
    (['B','G'], 22), (['C','R'], 22), (['H','R'], 21), (['C','Y'], 28),
    (['C','Z'], 24), (['D','K'], 18), (['D','O'], 28), (['E','E'], 20),
    (['F','I'], 18), (['F','R'], 27), (['G','E'], 22), (['D','E'], 22),
    (['G','I'], 23), (['G','R'], 27), (['G','L'], 18), (['G','T'], 28),
    (['H','U'], 28), (['I','S'], 26), (['I','E'], 22), (['I','L'], 23),
    (['I','T'], 27), (['K','Z'], 20), (['K','W'], 30), (['L','V'], 21),
    (['L','B'], 28), (['L','I'], 21), (['L','T'], 20), (['L','U'], 20),
    (['M','K'], 19), (['M','T'], 31), (['M','R'], 27), (['M','U'], 30),
    (['M','C'], 27), (['M','D'], 24), (['M','E'], 22), (['N','L'], 18),
    (['N','O'], 15), (['P','K'], 24), (['P','S'], 29), (['P','L'], 28),
    (['P','T'], 25), (['R','O'], 24), (['S','M'], 27), (['S','A'], 24),
    (['R','S'], 22), (['S','K'], 24), (['S','I'], 19), (['E','S'], 24),
    (['S','E'], 24), (['C','H'], 21), (['T','N'], 24), (['T','R'], 26),
    (['A','E'], 23), (['G','B'], 22), (['V','G'], 24) ]

/-- The country-length lookup of is_valid: linear search of IBAN_LENGTHS
for the country code, returning the expected length when found. -/
def lookupLength (cc : List Char) : Option Nat :=
  (IBAN_LENGTHS.find? (fun p => p.1 == cc)).map (fun p => p.2)

/-- The digit mapping of is_valid: a decimal digit maps to its value,
an uppercase letter A..Z maps to value 10..35, anything else is dropped
(the filter_map arm returning None). The numerals 48, 57, 65 and 90 are
the code points of the characters 0, 9, A and Z. -/
def digitMap (c : Char) : Option Nat :=
  if 48 ≤ c.toNat ∧ c.toNat ≤ 57 then some (c.toNat - 48)
  else if 65 ≤ c.toNat ∧ c.toNat ≤ 90 then some (c.toNat - 65 + 10)
  else none

/-- Decimal digit expansion of a mapped value (u8::to_string, faithful for
values below 100; digitMap only produces values up to 35): one digit for
values below ten, two digits otherwise. -/
def decDigits (v : Nat) : List Nat := if v < 10 then [v] else [v / 10, v % 10]

/-- The long digit string of is_valid: digit-map the characters, drop the
unmapped ones, and concatenate the decimal expansions of the values.
Each entry is one decimal digit of the numeric IBAN string. -/
def numericDigits (s : List Char) : List Nat :=
  ((s.filterMap digitMap).map decDigits).flatten

/-- Value of a digit string read in base 10. -/
def digitsVal (ds : List Nat) : Nat := ds.foldl (fun a d => a * 10 + d) 0

/-- One step of the chunked mod-97 reduction of is_valid:
r := (r * 10 ^ len(chunk) + value(chunk)) mod 97. -/
def mod97Step (r : Nat) (chunk : List Nat) : Nat :=
  (r * 10 ^ chunk.length + digitsVal chunk) % 97

/-- Split a digit string into the successive chunks of (at most) nine
digits taken by chunks(9) in is_valid. -/
def chunks9Aux : Nat → List Nat → List (List Nat)
  | 0, _ => []
  | _, [] => []
  | fuel + 1, d :: ds => (d :: ds).take 9 :: chunks9Aux fuel ((d :: ds).drop 9)

/-- Split a digit string into the successive chunks of (at most) nine
digits taken by chunks(9) in is_valid; the fuel argument of chunks9Aux
(one unit per chunk, each chunk consuming at least one digit) only makes
the recursion structural. -/
def chunks9 (l : List Nat) : List (List Nat) := chunks9Aux l.length l

/-- The chunked mod-97 computation of is_valid: fold mod97Step over the
nine-digit chunks, starting from remainder 0. -/
def mod97Chunks (ds : List Nat) : Nat := (chunks9 ds).foldl mod97Step 0

/-- IBAN::is_valid (mod.rs lines 71-114), rendered at the character level:
the byte-level slicing of the source is exact here because to_string
yields only ASCII characters (one byte each); the byte-faithful variant
isValidChecked below is proved to agree on every buffer. -/
def IBAN.isValid (b : IBAN) : Bool :=
  let iban := b.toString
  if strByteLen iban < 4 then false
  else if some b.len != lookupLength (iban.take 2) then false
  else
    let rearranged := iban.drop 4 ++ iban.take 4
    mod97Chunks (numericDigits rearranged) == 1

/-- Rust byte slicing s[0..k] of a string: the characters of the first k
bytes, or none (a panic) when k overshoots the string or falls strictly
inside the UTF-8 encoding of a character. -/
def takeToOffset : List Char → Nat → Option (List Char)
  | _, 0 => some []
  | [], _ + 1 => none
  | c :: cs, k + 1 =>
    if c.utf8Size ≤ k + 1 then (takeToOffset cs (k + 1 - c.utf8Size)).map (fun t => c :: t)
    else none

/-- Rust byte slicing s[k..] of a string: the characters after the first
k bytes, or none (a panic) when k overshoots the string or is not a
character boundary. -/
def dropFromOffset : List Char → Nat → Option (List Char)
  | l, 0 => some l
  | [], _ + 1 => none
  | c :: cs, k + 1 =>
    if c.utf8Size ≤ k + 1 then dropFromOffset cs (k + 1 - c.utf8Size) else none

/-- The str::from_utf8 + str::parse::<u128> of one chunk: fails (a panic
through unwrap) on an empty chunk, on a non-digit entry, or on u128
overflow; otherwise the chunk's numeric value. Chunk entries model the
bytes of the numeric string as digit values (the string holds only
decimal digit characters). -/
def parseChunk (chunk : List Nat) : Option Nat :=
  if chunk.isEmpty then none
  else if chunk.all (fun d => d ≤ 9) then
    if digitsVal chunk < 2 ^ 128 then some (digitsVal chunk) else none
  else none

/-- One checked step of the chunked reduction: parse the chunk and guard
the u128 power and the u128 multiply-add against overflow. -/
def mod97StepChecked (r : Nat) (chunk : List Nat) : Option Nat :=
  match parseChunk chunk with
  | none => none
  | some v =>
    if 10 ^ chunk.length < 2 ^ 128 ∧ r * 10 ^ chunk.length + v < 2 ^ 128 then
      some ((r * 10 ^ chunk.length + v) % 97)
    else none

/-- The checked chunk fold of is_valid, threading the running remainder. -/
def mod97ChunksChecked : List (List Nat) → Nat → Option Nat
  | [], r => some r
  | c :: cs, r =>
    match mod97StepChecked r c with
    | none => none
    | some r2 => mod97ChunksChecked cs r2

/-- IBAN::is_valid with every potentially-panicking operation of the
source modelled explicitly: the byte slicings at offsets 2 and 4, the
from_utf8 and parse unwraps on each chunk, and the u128 arithmetic.
A none is a panic; some is a returned boolean. -/
def IBAN.isValidChecked (b : IBAN) : Option Bool :=
  let iban := b.toString
  if strByteLen iban < 4 then some false
  else
    match takeToOffset iban 2 with
    | none => none
    | some cc =>
      if some b.len != lookupLength cc then some false
      else
        match dropFromOffset iban 4, takeToOffset iban 4 with
        | some t, some h =>
          match mod97ChunksChecked (chunks9 (numericDigits (t ++ h))) 0 with
          | none => none
          | some r => some (r == 1)
        | _, _ => none

/-- Normalization of the text construction path:
value.replace(" ", "").to_uppercase(). Space characters are removed and
each character is uppercased. Char.toUpper is the ASCII uppercase map,
which agrees with Rust on all ASCII characters (Rust additionally applies
Unicode case mappings to non-ASCII letters). -/
def normalizeText (s : List Char) : List Char :=
  (s.filter (fun c => c ≠ ' ')).map Char.toUpper

/-- TryFrom<&str> / TryFrom<String> for IBAN
(from_implementations.rs lines 26-46): normalize, reject when the
normalized byte length exceeds 34 (WrongIBANSize), then place the
characters one by one, rejecting any character that is not ASCII
alphanumeric (NotAnIBAN); unfilled slots stay NUL. -/
def tryFromText (value : List Char) : Except Error IBAN :=
  let input := normalizeText value
  if 34 < strByteLen input then .error .WrongIBANSize
  else if input.all Char.isAlphanum then .ok (mkIBAN input)
  else .error .NotAnIBAN

/-- TryFrom<Vec<u8>> for IBAN (from_implementations.rs lines 48-69):
reject when more than 34 bytes (WrongIBANSize), cast each byte to a
character, reject any non-ASCII character (NotAnIBAN — note the NUL byte
is ASCII and passes), place the characters verbatim; unfilled slots stay
NUL. Bytes are naturals below 256; Char.ofNat models the u8-to-char cast
on that range. -/
def tryFromBytes (value : List Nat) : Except Error IBAN :=
  if 34 < value.length then .error .WrongIBANSize
  else
    let input := value.map Char.ofNat
    if input.all isAsciiChar then .ok (mkIBAN input)
    else .error .NotAnIBAN

/-- From<[char; 34]> for IBAN: the trusted no-validation constructor. -/
def IBAN.ofChars (l : List Char) (h : l.length = 34) : IBAN := ⟨l, h⟩

/-- IBAN::as_bytes_unchecked: each slot cast to a byte (char as u8, the
low eight bits of the code point), padding slots becoming zero bytes. -/
def IBAN.asBytesUnchecked (b : IBAN) : List Nat :=
  b.val.map (fun c => c.toNat % 256)

/-- Serialize for IBAN: the 34 slots collected into one string, emitted
with serialize_str; the wire payload is that string. -/
def serializeIBAN (b : IBAN) : List Char := b.val

/-- UTF-8 encoding of one character (the byte sequence a Rust String
stores for it). -/
def utf8EncodeChar (c : Char) : List Nat :=
  let n := c.toNat
  if n < 128 then [n]
  else if n < 2048 then [192 + n / 64, 128 + n % 64]
  else if n < 65536 then [224 + n / 4096, 128 + n / 64 % 64, 128 + n % 64]
  else [240 + n / 262144, 128 + n / 4096 % 64, 128 + n / 64 % 64, 128 + n % 64]

/-- UTF-8 byte sequence of a string. -/
def utf8Bytes (s : List Char) : List Nat := (s.map utf8EncodeChar).flatten

/-- Deserialize for IBAN (the serde visitor, mod.rs lines 165-198):
require the payload string to be exactly 34 bytes long, else fail with
invalid_length; load its characters in order into a NUL-initialized
34-slot buffer. -/
def deserializeIBAN (s : List Char) : Except DeError IBAN :=
  if strByteLen s ≠ 34 then .error (.invalidLength (strByteLen s))
  else .ok (mkIBAN s)

/-- A buffer's padding is well-formed when every slot from the first NUL
onward is NUL (padding sentinels form a contiguous suffix). -/
def paddingTrailing (l : List Char) : Bool :=
  (l.dropWhile (fun c => c ≠ '\x00')).all (fun c => c = '\x00')

/-- Construct-and-validate helper: the validity verdict of the buffer
built from a text input, when construction succeeds. -/
def validOfText (s : List Char) : Option Bool :=
  (tryFromText s).toOption.map IBAN.isValid

/-- The buffer built from a text input (the fresh NUL buffer when
construction fails; used only to name concrete buffers). -/
def textIBAN (s : List Char) : IBAN := (tryFromText s).toOption.getD IBAN.new

/-! ## Basic facts about the embedding -/

theorem utf8Size_of_ascii (c : Char) (h : isAsciiChar c = true) : c.utf8Size = 1 := by
  have h' : c.val ≤ UInt32.ofNatCore 127 Char.utf8Size.proof_1 := by
    simpa [isAsciiChar] using h
  unfold Char.utf8Size
  exact if_pos h'

theorem length_le_strByteLen (l : List Char) : l.length ≤ strByteLen l := by
  induction l with
  | nil => simp [strByteLen]
  | cons c cs ih =>
    have := Char.utf8Size_pos c
    simp only [strByteLen, List.map_cons, List.sum_cons, List.length_cons] at *
    omega

theorem strByteLen_of_ascii (l : List Char) (h : ∀ c ∈ l, isAsciiChar c = true) :
    strByteLen l = l.length := by
  induction l with
  | nil => simp [strByteLen]
  | cons c cs ih =>
    have h1 := utf8Size_of_ascii c (h c (by simp))
    have h2 := ih (fun x hx => h x (by simp [hx]))
    simp only [strByteLen, List.map_cons, List.sum_cons, List.length_cons] at *
    omega

theorem padTo34_eq (l : List Char) (h : l.length ≤ 34) :
    padTo34 l = l ++ List.replicate (34 - l.length) '\x00' := by
  unfold padTo34
  rw [List.take_append_eq_append_take, List.take_of_length_le h, List.take_replicate,
    inf_of_le_left (by omega : 34 - l.length ≤ 34)]

theorem takeWhile_append_of_all (p : Char → Bool) (l r : List Char)
    (h : ∀ c ∈ l, p c = true) :
    (l ++ r).takeWhile p = l ++ r.takeWhile p := by
  induction l with
  | nil => simp
  | cons c cs ih =>
    simp only [List.cons_append, List.takeWhile_cons, h c (by simp),
      ih (fun x hx => h x (by simp [hx])), if_true]

theorem takeWhile_replicate_nul (n : Nat) :
    (List.replicate n '\x00').takeWhile (fun c => c ≠ '\x00') = [] := by
  cases n with
  | zero => simp
  | succ m => simp [List.replicate_succ, List.takeWhile_cons]

theorem alnum_bounds (c : Char) (h : c.isAlphanum = true) :
    (65 ≤ c.toNat ∧ c.toNat ≤ 90) ∨ (97 ≤ c.toNat ∧ c.toNat ≤ 122) ∨
    (48 ≤ c.toNat ∧ c.toNat ≤ 57) := by
  simp only [Char.isAlphanum, Char.isAlpha, Char.isUpper, Char.isLower, Char.isDigit,
    Bool.or_eq_true, Bool.and_eq_true, decide_eq_true_eq] at h
  rcases h with (⟨h1, h2⟩ | ⟨h1, h2⟩) | ⟨h1, h2⟩
  · exact Or.inl ⟨h1, h2⟩
  · exact Or.inr (Or.inl ⟨h1, h2⟩)
  · exact Or.inr (Or.inr ⟨h1, h2⟩)

theorem alnum_ascii (c : Char) (h : c.isAlphanum = true) : isAsciiChar c = true := by
  rcases alnum_bounds c h with ⟨h1, h2⟩ | ⟨h1, h2⟩ | ⟨h1, h2⟩ <;>
    simp only [isAsciiChar, decide_eq_true_eq] <;> omega

theorem alnum_ne_nul (c : Char) (h : c.isAlphanum = true) : c ≠ '\x00' := by
  intro heq
  rw [heq] at h
  exact absurd h (by decide)

theorem mkIBAN_val (l : List Char) (h : l.length ≤ 34) :
    (mkIBAN l).val = l ++ List.replicate (34 - l.length) '\x00' := padTo34_eq l h

theorem content_mkIBAN (l : List Char) (h34 : l.length ≤ 34)
    (hnul : ∀ c ∈ l, c ≠ '\x00') : (mkIBAN l).content = l := by
  unfold IBAN.content
  rw [mkIBAN_val l h34,
    takeWhile_append_of_all _ _ _ (fun c hc => by simpa using hnul c hc),
    takeWhile_replicate_nul, List.append_nil]

theorem len_mkIBAN (l : List Char) (h34 : l.length ≤ 34)
    (hnul : ∀ c ∈ l, c ≠ '\x00') : (mkIBAN l).len = l.length := by
  have : (mkIBAN l).len = (mkIBAN l).content.length := rfl
  rw [this, content_mkIBAN l h34 hnul]

theorem toString_of_ascii (b : IBAN) (h : ∀ c ∈ b.val, isAsciiChar c = true) :
    b.toString = b.val := List.filter_eq_self.mpr h

/-- Successful text construction dissected: the resulting buffer is the
normalized input padded to 34 slots, the normalized input fits, and every
normalized character is ASCII alphanumeric. -/
theorem tryFromText_ok (s : List Char) (b : IBAN) (h : tryFromText s = .ok b) :
    b = mkIBAN (normalizeText s) ∧ (normalizeText s).length ≤ 34 ∧
    ∀ c ∈ normalizeText s, c.isAlphanum = true := by
  unfold tryFromText at h
  simp only [] at h
  split at h
  · exact absurd h (by simp)
  next h34 =>
    split at h
    next hall =>
      injection h with h
      exact ⟨h.symm, Nat.le_trans (length_le_strByteLen _) (by omega),
        List.all_eq_true.mp hall⟩
    · exact absurd h (by simp)

theorem mkIBAN_ascii (l : List Char) (h34 : l.length ≤ 34)
    (h : ∀ c ∈ l, isAsciiChar c = true) :
    ∀ c ∈ (mkIBAN l).val, isAsciiChar c = true := by
  rw [mkIBAN_val l h34]
  intro c hc
  rcases List.mem_append.mp hc with hc | hc
  · exact h c hc
  · rw [List.eq_of_mem_replicate hc]
    decide

/-! ## Claim theorems: construction error paths (C8, C9) -/

/-- C9: every text input whose normalized content (spaces stripped,
uppercased) exceeds 34 characters fails with WrongIBANSize; the length
check runs on the normalized length before the per-character loop, so
this holds even when the input also contains disallowed characters. -/
theorem text_too_long_wrong_size (s : List Char)
    (h : 34 < (normalizeText s).length) :
    tryFromText s = .error Error.WrongIBANSize := by
  unfold tryFromText
  have hb := length_le_strByteLen (normalizeText s)
  simp only []
  rw [if_pos (by omega)]

theorem text_too_long_wrong_size_witness :
    34 < (normalizeText (List.replicate 35 '!')).length ∧
    tryFromText (List.replicate 35 '!') = .error Error.WrongIBANSize :=
  ⟨by decide, text_too_long_wrong_size (List.replicate 35 '!') (by decide)⟩

/-- C8 counterexample: an input of 35 exclamation marks contains a
disallowed character after normalization (the exclamation mark survives
stripping and uppercasing and is not ASCII alphanumeric), yet
construction fails with WrongIBANSize, not NotAnIBAN, because the length
check runs first. -/
theorem text_bad_char_not_always_notaniban :
    ('!' ∈ normalizeText (List.replicate 35 '!') ∧ ¬ ('!').isAlphanum = true) ∧
    tryFromText (List.replicate 35 '!') = .error Error.WrongIBANSize ∧
    Error.WrongIBANSize ≠ Error.NotAnIBAN := by
  exact ⟨⟨by decide, by decide⟩, by decide, by decide⟩

/-- C8 (amended): every text input whose normalized content stays within
the 34-byte size bound and contains a disallowed character (one outside
ASCII alphanumeric, after stripping spaces and uppercasing) fails with
NotAnIBAN. -/
theorem text_bad_char_notaniban (s : List Char)
    (hlen : strByteLen (normalizeText s) ≤ 34)
    (hbad : ∃ c ∈ normalizeText s, ¬ c.isAlphanum = true) :
    tryFromText s = .error Error.NotAnIBAN := by
  unfold tryFromText
  simp only []
  rw [if_neg (by omega), if_neg]
  intro hall
  obtain ⟨c, hc, hnc⟩ := hbad
  exact hnc (List.all_eq_true.mp hall c hc)

theorem text_bad_char_notaniban_witness :
    strByteLen (normalizeText ['!']) ≤ 34 ∧
    tryFromText ['!'] = .error Error.NotAnIBAN :=
  ⟨by decide, text_bad_char_notaniban ['!'] (by decide) ⟨'!', by decide, by decide⟩⟩

/-! ## Claim theorems: the to-text query (C5) -/

/-- C5 counterexample: the buffer built from the text IB has effective
length 2, but to_string keeps the NUL padding slots (NUL is ASCII), so
the returned string is not the non-padding content prefix. -/
theorem toString_keeps_padding :
    (tryFromText "IB".toList).toOption.map
      (fun b => b.toString == b.content) = some false := by decide

/-- C5 (amended): for every buffer from successful text construction,
to_string returns the content followed by all the NUL padding slots
(34 characters in total), because the padding sentinel is itself ASCII
and the implementation filters only non-ASCII slots. -/
theorem toString_eq_content_append_padding (s : List Char) (b : IBAN)
    (h : tryFromText s = .ok b) :
    b.toString = b.content ++ List.replicate (34 - b.len) '\x00' := by
  obtain ⟨hb, h34, hall⟩ := tryFromText_ok s b h
  subst hb
  have hnul : ∀ c ∈ normalizeText s, c ≠ '\x00' :=
    fun c hc => alnum_ne_nul c (hall c hc)
  have hascii : ∀ c ∈ normalizeText s, isAsciiChar c = true :=
    fun c hc => alnum_ascii c (hall c hc)
  rw [toString_of_ascii _ (mkIBAN_ascii _ h34 hascii), content_mkIBAN _ h34 hnul,
    len_mkIBAN _ h34 hnul, mkIBAN_val _ h34]

theorem toString_eq_content_append_padding_witness :
    tryFromText "IB".toList = .ok (mkIBAN ['I', 'B']) ∧
    (mkIBAN ['I', 'B']).toString =
      (mkIBAN ['I', 'B']).content ++
        List.replicate (34 - (mkIBAN ['I', 'B']).len) '\x00' :=
  ⟨by decide, toString_eq_content_append_padding "IB".toList _ (by decide)⟩

/-! ## Claim theorems: the padding invariant (C4) -/

/-- C4, evaluated at the failing input: the byte-sequence constructor
accepts the bytes 65, 0, 66 (the NUL byte is ASCII), producing a buffer
in which a padding sentinel at slot 1 precedes the content character at
slot 2 — the padding sentinels are not a contiguous suffix. -/
theorem bytes_interior_padding :
    (tryFromBytes [65, 0, 66]).toOption.map
      (fun b => paddingTrailing b.val) = some false := by decide

/-! ## The chunked mod-97 reduction (C2) -/

theorem foldl_digits (acc : Nat) (l : List Nat) :
    l.foldl (fun a d => a * 10 + d) acc = acc * 10 ^ l.length + digitsVal l := by
  induction l generalizing acc with
  | nil => simp [digitsVal]
  | cons d ds ih =>
    have h1 : digitsVal (d :: ds) = ds.foldl (fun a d => a * 10 + d) d := by
      simp [digitsVal]
    rw [List.foldl_cons, ih (acc * 10 + d), h1, ih d, List.length_cons]
    ring

theorem digitsVal_append (a b : List Nat) :
    digitsVal (a ++ b) = digitsVal a * 10 ^ b.length + digitsVal b := by
  unfold digitsVal
  rw [List.foldl_append, foldl_digits]
  rfl

theorem digitsVal_lt (l : List Nat) (h : ∀ d ∈ l, d ≤ 9) :
    digitsVal l < 10 ^ l.length := by
  induction l with
  | nil => simp [digitsVal]
  | cons d ds ih =>
    have h1 : digitsVal (d :: ds) = d * 10 ^ ds.length + digitsVal ds := by
      have h2 : digitsVal (d :: ds) = ds.foldl (fun a d => a * 10 + d) d := by
        simp [digitsVal]
      rw [h2, foldl_digits]
    have hd : d ≤ 9 := h d (by simp)
    have hds := ih (fun x hx => h x (by simp [hx]))
    have hmul : d * 10 ^ ds.length ≤ 9 * 10 ^ ds.length :=
      Nat.mul_le_mul_right _ hd
    rw [h1, List.length_cons, pow_succ]
    omega

theorem foldl_mod97 (chunks : List (List Nat)) (r : Nat) (hr : r < 97) :
    chunks.foldl mod97Step r =
      (r * 10 ^ chunks.flatten.length + digitsVal chunks.flatten) % 97 := by
  induction chunks generalizing r with
  | nil => simp [digitsVal, Nat.mod_eq_of_lt hr]
  | cons c cs ih =>
    rw [List.foldl_cons]
    have hstep : mod97Step r c = (r * 10 ^ c.length + digitsVal c) % 97 := rfl
    rw [hstep, ih _ (Nat.mod_lt _ (by norm_num)), List.flatten_cons]
    have hX : ((r * 10 ^ c.length + digitsVal c) % 97) * 10 ^ cs.flatten.length
          + digitsVal cs.flatten ≡
        (r * 10 ^ c.length + digitsVal c) * 10 ^ cs.flatten.length
          + digitsVal cs.flatten [MOD 97] :=
      Nat.ModEq.add_right _ (Nat.ModEq.mul_right _ (Nat.mod_modEq _ 97))
    rw [Nat.ModEq] at hX
    rw [hX, digitsVal_append, List.length_append]
    congr 1
    ring

theorem foldl_mod97_lt (chunks : List (List Nat)) (r : Nat) (hr : r < 97) :
    chunks.foldl mod97Step r < 97 := by
  induction chunks generalizing r with
  | nil => exact hr
  | cons c cs ih => exact ih _ (Nat.mod_lt _ (by norm_num))

theorem chunks9Aux_flatten (fuel : Nat) (l : List Nat) (h : l.length ≤ fuel) :
    (chunks9Aux fuel l).flatten = l := by
  induction fuel generalizing l with
  | zero =>
    have : l = [] := List.length_eq_zero.mp (by omega)
    simp [this, chunks9Aux]
  | succ f ih =>
    cases l with
    | nil => simp [chunks9Aux]
    | cons d ds =>
      simp only [chunks9Aux, List.flatten_cons]
      rw [ih _ (by simp only [List.length_drop, List.length_cons] at *; omega)]
      exact List.take_append_drop 9 (d :: ds)

theorem chunks9Aux_mem (fuel : Nat) (l c : List Nat) (hc : c ∈ chunks9Aux fuel l) :
    c ≠ [] ∧ c.length ≤ 9 := by
  induction fuel generalizing l with
  | zero => simp [chunks9Aux] at hc
  | succ f ih =>
    cases l with
    | nil => simp [chunks9Aux] at hc
    | cons d ds =>
      simp only [chunks9Aux, List.mem_cons] at hc
      rcases hc with hc | hc
      · subst hc
        refine ⟨by simp, ?_⟩
        simp
      · exact ih _ hc

theorem chunks9_flatten (l : List Nat) : (chunks9 l).flatten = l :=
  chunks9Aux_flatten l.length l (Nat.le_refl _)

theorem chunks9_mem (l c : List Nat) (hc : c ∈ chunks9 l) : c ≠ [] ∧ c.length ≤ 9 :=
  chunks9Aux_mem l.length l c hc

theorem mod97Chunks_eq (ds : List Nat) : mod97Chunks ds = digitsVal ds % 97 := by
  unfold mod97Chunks
  rw [foldl_mod97 _ 0 (by norm_num), chunks9_flatten]
  simp

/-- C2: for every decimal digit string presented as chunks of at most
nine digits, folding mod97Step from remainder 0 yields exactly the value
of the concatenated digit string modulo 97 — the same result as a true
big-integer mod-97 computation; moreover the running remainder stays
below 97 and every pre-reduction intermediate value r * 10 ^ len(chunk)
+ value(chunk) with r < 97 fits in a 64-bit (a fortiori 128-bit)
unsigned machine integer. -/
theorem chunked_mod97_exact (chunks : List (List Nat))
    (hlen : ∀ c ∈ chunks, c.length ≤ 9)
    (hdig : ∀ d ∈ chunks.flatten, d ≤ 9) :
    chunks.foldl mod97Step 0 = digitsVal chunks.flatten % 97 ∧
    chunks.foldl mod97Step 0 < 97 ∧
    ∀ r, r < 97 → ∀ c ∈ chunks, r * 10 ^ c.length + digitsVal c < 2 ^ 64 := by
  refine ⟨by rw [foldl_mod97 _ 0 (by norm_num)]; simp,
    foldl_mod97_lt _ 0 (by norm_num), ?_⟩
  intro r hr c hc
  have h9 := hlen c hc
  have hd : ∀ d ∈ c, d ≤ 9 := fun d hdc => hdig d (List.mem_flatten.mpr ⟨c, hc, hdc⟩)
  have h10 : (10 : Nat) ^ c.length ≤ 10 ^ 9 := Nat.pow_le_pow_right (by norm_num) h9
  have hv : digitsVal c < 10 ^ 9 := lt_of_lt_of_le (digitsVal_lt c hd) h10
  have hrm : r * 10 ^ c.length ≤ 96 * 10 ^ 9 := Nat.mul_le_mul (by omega) h10
  have hbound : (96 : Nat) * 10 ^ 9 + 10 ^ 9 < 2 ^ 64 := by norm_num
  omega

theorem chunked_mod97_exact_witness :
    (∀ c ∈ [[9, 7], [1]], List.length c ≤ 9) ∧
    (∀ d ∈ List.flatten [[9, 7], [1]], d ≤ 9) ∧
    ([[9, 7], [1]].foldl mod97Step 0 = digitsVal (List.flatten [[9, 7], [1]]) % 97 ∧
      [[9, 7], [1]].foldl mod97Step 0 < 97 ∧
      ∀ r, r < 97 → ∀ c ∈ [[9, 7], [1]],
        r * 10 ^ c.length + digitsVal c < 2 ^ 64) :=
  ⟨by decide, by decide, chunked_mod97_exact [[9, 7], [1]] (by decide) (by decide)⟩

/-! ## Claim theorems: ground-truth vectors (C3) -/

/-- C3: the literal ground-truth inputs of the spec, each constructed
through the text path and validated: the three listed valid IBANs give
true, the two bad-checksum inputs, the too-short input, the unknown
country code and the wrong-length input give false. -/
theorem ground_truth_vectors :
    validOfText "GB82 WEST 1234 5698 7654 32".toList = some true ∧
    validOfText "DE89 3704 0044 0532 0130 00".toList = some true ∧
    validOfText "GR16 0110 1250 0000 0001 2300 695".toList = some true ∧
    validOfText "DE51 2131 1231 5532 1234 42".toList = some false ∧
    validOfText "GB54 AAAA BBBB CCCC DDDD EE".toList = some false ∧
    validOfText "IB".toList = some false ∧
    validOfText "DD14 2004 1010 0505 0001 3M02 606".toList = some false ∧
    validOfText "DE22 8472 162".toList = some false := by
  refine ⟨?_, ?_, ?_, ?_, ?_, ?_, ?_, ?_⟩ <;> decide

/-! ## Claim theorems: byte round-trip (C7) -/

theorem mkIBAN_self (b : IBAN) : mkIBAN b.val = b := by
  apply Subtype.ext
  show padTo34 b.val = b.val
  rw [padTo34_eq _ (Nat.le_of_eq b.prop), b.prop]
  simp

/-- C7: for every buffer whose 34 slots are all ASCII, converting to raw
bytes with as_bytes_unchecked (34 bytes, padding as zero bytes) and
constructing back through the byte-sequence path succeeds and returns an
equal buffer. -/
theorem bytes_roundtrip (b : IBAN) (h : ∀ c ∈ b.val, isAsciiChar c = true) :
    tryFromBytes b.asBytesUnchecked = .ok b := by
  unfold tryFromBytes IBAN.asBytesUnchecked
  have hlen : (b.val.map (fun c => c.toNat % 256)).length = 34 := by
    simp [b.prop]
  rw [if_neg (by omega)]
  have hmap : (b.val.map (fun c => c.toNat % 256)).map Char.ofNat = b.val := by
    rw [List.map_map]
    have : ∀ c ∈ b.val, (Char.ofNat ∘ fun c => c.toNat % 256) c = id c := by
      intro c hc
      have hc127 : c.toNat ≤ 127 := by simpa [isAsciiChar] using h c hc
      simp only [Function.comp_apply, id_eq, Nat.mod_eq_of_lt (by omega : c.toNat < 256)]
      exact Char.ofNat_toNat c
    rw [List.map_congr_left this, List.map_id]
  rw [hmap, if_pos (List.all_eq_true.mpr h), mkIBAN_self]

theorem bytes_roundtrip_witness :
    (∀ c ∈ (textIBAN "GB61BARC20031895173674".toList).val, isAsciiChar c = true) ∧
    tryFromBytes (textIBAN "GB61BARC20031895173674".toList).asBytesUnchecked =
      .ok (textIBAN "GB61BARC20031895173674".toList) :=
  ⟨by decide, bytes_roundtrip _ (by decide)⟩

/-! ## Claim theorems: wire serialization (C6) -/

theorem utf8EncodeChar_length (c : Char) : (utf8EncodeChar c).length = c.utf8Size := by
  have e1 : (c.val ≤ UInt32.ofNatCore 127 Char.utf8Size.proof_1) ↔ c.toNat ≤ 127 := Iff.rfl
  have e2 : (c.val ≤ UInt32.ofNatCore 2047 Char.utf8Size.proof_2) ↔ c.toNat ≤ 2047 := Iff.rfl
  have e3 : (c.val ≤ UInt32.ofNatCore 65535 Char.utf8Size.proof_3) ↔ c.toNat ≤ 65535 := Iff.rfl
  unfold utf8EncodeChar Char.utf8Size
  simp only [e1, e2, e3]
  split_ifs <;> simp_all <;> omega

theorem utf8Bytes_length (s : List Char) : (utf8Bytes s).length = strByteLen s := by
  unfold utf8Bytes strByteLen
  rw [List.length_flatten, List.map_map]
  congr 1
  exact List.map_congr_left (fun c _ => utf8EncodeChar_length c)

theorem utf8EncodeChar_ascii (c : Char) (h : isAsciiChar c = true) :
    utf8EncodeChar c = [c.toNat] := by
  unfold utf8EncodeChar
  rw [if_pos (by simpa [isAsciiChar] using Nat.lt_succ_of_le (by simpa [isAsciiChar] using h))]

theorem utf8Bytes_ascii (s : List Char) (h : ∀ c ∈ s, isAsciiChar c = true) :
    utf8Bytes s = s.map Char.toNat := by
  unfold utf8Bytes
  rw [List.map_congr_left (fun c hc => utf8EncodeChar_ascii c (h c hc))]
  induction s with
  | nil => simp
  | cons c cs ih => simp [ih (fun x hx => h x (by simp [hx]))]

/-- C6: for every buffer whose 34 slots are all ASCII, the wire
serialization is a single string payload of exactly 34 bytes — the slots
rendered as raw bytes in order, including the trailing zero-byte padding
— and deserializing that payload returns an equal buffer; deserializing
any payload whose byte length is not exactly 34 fails with the
length-mismatch error carrying that length. -/
theorem serde_wire_contract :
    (∀ b : IBAN, (∀ c ∈ b.val, isAsciiChar c = true) →
      (utf8Bytes (serializeIBAN b)).length = 34 ∧
      utf8Bytes (serializeIBAN b) = b.asBytesUnchecked ∧
      deserializeIBAN (serializeIBAN b) = .ok b) ∧
    (∀ s : List Char, (utf8Bytes s).length ≠ 34 →
      deserializeIBAN s = .error (.invalidLength ((utf8Bytes s).length))) := by
  constructor
  · intro b h
    have hstr : strByteLen b.val = 34 := by
      rw [strByteLen_of_ascii _ h, b.prop]
    refine ⟨by rw [utf8Bytes_length]; exact hstr, ?_, ?_⟩
    · unfold serializeIBAN IBAN.asBytesUnchecked
      rw [utf8Bytes_ascii _ h]
      exact List.map_congr_left fun c hc => by
        have : c.toNat ≤ 127 := by simpa [isAsciiChar] using h c hc
        exact (Nat.mod_eq_of_lt (by omega)).symm
    · unfold deserializeIBAN serializeIBAN
      rw [if_neg (by omega), mkIBAN_self]
  · intro s h
    rw [utf8Bytes_length] at h
    unfold deserializeIBAN
    rw [if_pos h, utf8Bytes_length]

theorem serde_wire_contract_witness :
    ((∀ c ∈ (textIBAN "GB61BARC20031895173674".toList).val, isAsciiChar c = true) ∧
      (utf8Bytes (serializeIBAN (textIBAN "GB61BARC20031895173674".toList))).length = 34 ∧
      utf8Bytes (serializeIBAN (textIBAN "GB61BARC20031895173674".toList)) =
        (textIBAN "GB61BARC20031895173674".toList).asBytesUnchecked ∧
      deserializeIBAN (serializeIBAN (textIBAN "GB61BARC20031895173674".toList)) =
        .ok (textIBAN "GB61BARC20031895173674".toList)) ∧
    ((utf8Bytes ['a']).length ≠ 34 ∧
      deserializeIBAN ['a'] = .error (.invalidLength ((utf8Bytes ['a']).length))) :=
  ⟨⟨by decide, serde_wire_contract.1 _ (by decide)⟩,
    ⟨by decide, serde_wire_contract.2 ['a'] (by decide)⟩⟩

/-! ## Claim theorems: validity characterization (C1) -/

theorem lookupLength_some (cc : List Char) (L : Nat) (h : lookupLength cc = some L) :
    cc.length = 2 ∧ 15 ≤ L ∧ ∀ c ∈ cc, c ≠ '\x00' := by
  unfold lookupLength at h
  cases hf : IBAN_LENGTHS.find? (fun p => p.1 == cc) with
  | none => rw [hf] at h; cases h
  | some p =>
    rw [hf] at h
    simp at h
    have hmem := List.mem_of_find?_eq_some hf
    have hcc : p.1 = cc := by simpa using List.find?_some hf
    have htable : ∀ q ∈ IBAN_LENGTHS,
        q.1.length = 2 ∧ 15 ≤ q.2 ∧ ∀ c ∈ q.1, c ≠ '\x00' := by decide
    obtain ⟨h1, h2, h3⟩ := htable p hmem
    exact ⟨hcc ▸ h1, h ▸ h2, hcc ▸ h3⟩

theorem numericDigits_append (a b : List Char) :
    numericDigits (a ++ b) = numericDigits a ++ numericDigits b := by
  unfold numericDigits
  rw [List.filterMap_append, List.map_append, List.flatten_append]

theorem numericDigits_replicate_nul (n : Nat) :
    numericDigits (List.replicate n '\x00') = [] := by
  unfold numericDigits
  have h : List.filterMap digitMap (List.replicate n '\x00') = [] := by
    induction n with
    | zero => simp
    | succ m ih =>
      rw [List.replicate_succ, List.filterMap_cons,
        (by decide : digitMap '\x00' = none), ih]
  rw [h]
  rfl

/-- C1: for every buffer obtained from a successful text construction,
is_valid returns true if and only if the first two content characters
have an entry in the country length table, that entry equals the
buffer's effective length exactly, and the ISO 7064 MOD 97-10 remainder
of the digit-mapped rearranged content (content[4..] followed by
content[0..4]) equals 1. In particular a buffer whose country code is
absent from the table, or whose effective length differs from the table
entry, is invalid. -/
theorem validity_characterization (s : List Char) (b : IBAN)
    (h : tryFromText s = .ok b) :
    b.isValid = true ↔
      ((∃ L, lookupLength (b.content.take 2) = some L ∧ b.len = L) ∧
        digitsVal (numericDigits (b.content.drop 4 ++ b.content.take 4)) % 97 = 1) := by
  obtain ⟨hb, h34, hall⟩ := tryFromText_ok s b h
  subst hb
  set input := normalizeText s with hinput
  have hnul : ∀ c ∈ input, c ≠ '\x00' := fun c hc => alnum_ne_nul c (hall c hc)
  have hascii : ∀ c ∈ input, isAsciiChar c = true := fun c hc => alnum_ascii c (hall c hc)
  have hval : (mkIBAN input).val = input ++ List.replicate (34 - input.length) '\x00' :=
    mkIBAN_val input h34
  have hcontent : (mkIBAN input).content = input := content_mkIBAN input h34 hnul
  have hlen : (mkIBAN input).len = input.length := len_mkIBAN input h34 hnul
  have hstr : (mkIBAN input).toString =
      input ++ List.replicate (34 - input.length) '\x00' := by
    rw [toString_of_ascii _ (mkIBAN_ascii input h34 hascii), hval]
  have hstrlen : strByteLen (input ++ List.replicate (34 - input.length) '\x00') = 34 := by
    rw [← hval, strByteLen_of_ascii _ (mkIBAN_ascii input h34 hascii), (mkIBAN input).prop]
  unfold IBAN.isValid
  simp only []
  rw [hstr, hcontent, hlen, if_neg (by rw [hstrlen]; omega)]
  by_cases h2 : 2 ≤ input.length
  · have htake2 : (input ++ List.replicate (34 - input.length) '\x00').take 2 =
        input.take 2 := by
      rw [List.take_append_eq_append_take, List.take_replicate,
        Nat.sub_eq_zero_of_le h2]
      simp
    rw [htake2]
    cases hlk : lookupLength (input.take 2) with
    | none =>
      rw [if_pos (by simp)]
      constructor
      · intro hfalse; exact absurd hfalse (by simp)
      · rintro ⟨⟨L, hL, -⟩, -⟩
        cases hL
    | some L =>
      by_cases hEq : input.length = L
      · have h15 : 15 ≤ L := (lookupLength_some _ L hlk).2.1
        have h4 : 4 ≤ input.length := by omega
        have htake4 : (input ++ List.replicate (34 - input.length) '\x00').take 4 =
            input.take 4 := by
          rw [List.take_append_eq_append_take, List.take_replicate,
            Nat.sub_eq_zero_of_le h4, inf_of_le_left (Nat.zero_le _),
            List.replicate_zero, List.append_nil]
        have hdrop4 : (input ++ List.replicate (34 - input.length) '\x00').drop 4 =
            input.drop 4 ++ List.replicate (34 - input.length) '\x00' := by
          rw [List.drop_append_eq_append_drop, Nat.sub_eq_zero_of_le h4, List.drop_zero]
        rw [htake4, hdrop4, if_neg (by simp [hEq])]
        have hD : numericDigits
              ((input.drop 4 ++ List.replicate (34 - input.length) '\x00') ++
                input.take 4) =
            numericDigits (input.drop 4 ++ input.take 4) := by
          rw [numericDigits_append, numericDigits_append,
            numericDigits_replicate_nul, numericDigits_append]
          simp
        rw [hD]
        constructor
        · intro hv
          refine ⟨⟨L, rfl, hEq⟩, ?_⟩
          have hv1 := beq_iff_eq.mp hv
          rw [mod97Chunks_eq] at hv1
          exact hv1
        · rintro ⟨-, hm⟩
          exact beq_iff_eq.mpr (by rw [mod97Chunks_eq]; exact hm)
      · rw [if_pos (by simp only [bne_iff_ne, ne_eq, Option.some.injEq]; exact hEq)]
        constructor
        · intro hfalse; exact absurd hfalse (by simp)
        · rintro ⟨⟨L', hL', hlen'⟩, -⟩
          exact absurd (hlen'.trans (Option.some.inj hL').symm) hEq
  · have htake2 : (input ++ List.replicate (34 - input.length) '\x00').take 2 =
        input ++ List.replicate (2 - input.length) '\x00' := by
      rw [List.take_append_eq_append_take, List.take_of_length_le (by omega),
        List.take_replicate, inf_of_le_left (by omega)]
    have hmem : '\x00' ∈ (input ++ List.replicate (34 - input.length) '\x00').take 2 := by
      rw [htake2]
      exact List.mem_append.mpr (Or.inr (List.mem_replicate.mpr ⟨by omega, rfl⟩))
    have hlkNone :
        lookupLength ((input ++ List.replicate (34 - input.length) '\x00').take 2) =
          none := by
      cases hlk : lookupLength
          ((input ++ List.replicate (34 - input.length) '\x00').take 2) with
      | none => rfl
      | some L => exact absurd rfl ((lookupLength_some _ L hlk).2.2 '\x00' hmem)
    rw [hlkNone, if_pos (by simp)]
    constructor
    · intro hfalse; exact absurd hfalse (by simp)
    · rintro ⟨⟨L, hL, -⟩, -⟩
      have hlen2 := (lookupLength_some _ L hL).1
      rw [List.length_take] at hlen2
      omega

theorem validity_characterization_witness :
    tryFromText "DE89 3704 0044 0532 0130 00".toList =
      .ok (textIBAN "DE89 3704 0044 0532 0130 00".toList) ∧
    ((textIBAN "DE89 3704 0044 0532 0130 00".toList).isValid = true ↔
      ((∃ L, lookupLength
            ((textIBAN "DE89 3704 0044 0532 0130 00".toList).content.take 2) = some L ∧
          (textIBAN "DE89 3704 0044 0532 0130 00".toList).len = L) ∧
        digitsVal (numericDigits
            ((textIBAN "DE89 3704 0044 0532 0130 00".toList).content.drop 4 ++
              (textIBAN "DE89 3704 0044 0532 0130 00".toList).content.take 4)) % 97
          = 1)) :=
  ⟨by decide,
    validity_characterization ("DE89 3704 0044 0532 0130 00".toList) _ (by decide)⟩

/-! ## Claim theorems: totality of is_valid (C10) -/

theorem takeToOffset_ascii (s : List Char) (k : Nat)
    (h : ∀ c ∈ s, isAsciiChar c = true) (hk : k ≤ s.length) :
    takeToOffset s k = some (s.take k) := by
  induction s generalizing k with
  | nil =>
    cases k with
    | zero => simp [takeToOffset]
    | succ m => simp at hk
  | cons c cs ih =>
    cases k with
    | zero => simp [takeToOffset]
    | succ m =>
      have h1 : c.utf8Size = 1 := utf8Size_of_ascii c (h c (by simp))
      simp only [takeToOffset, h1, if_pos (by omega : 1 ≤ m + 1), Nat.add_sub_cancel,
        ih m (fun x hx => h x (by simp [hx])) (by simpa using hk), Option.map_some]
      simp [List.take_succ_cons]

theorem dropFromOffset_ascii (s : List Char) (k : Nat)
    (h : ∀ c ∈ s, isAsciiChar c = true) (hk : k ≤ s.length) :
    dropFromOffset s k = some (s.drop k) := by
  induction s generalizing k with
  | nil =>
    cases k with
    | zero => simp [dropFromOffset]
    | succ m => simp at hk
  | cons c cs ih =>
    cases k with
    | zero => simp [dropFromOffset]
    | succ m =>
      have h1 : c.utf8Size = 1 := utf8Size_of_ascii c (h c (by simp))
      simp only [dropFromOffset, h1, if_pos (by omega : 1 ≤ m + 1), Nat.add_sub_cancel,
        ih m (fun x hx => h x (by simp [hx])) (by simpa using hk)]
      simp [List.drop_succ_cons]

theorem digitMap_le (c : Char) (v : Nat) (h : digitMap c = some v) : v ≤ 35 := by
  unfold digitMap at h
  split_ifs at h with h1 h2 <;> injection h with h <;> omega

theorem numericDigits_le (s : List Char) : ∀ d ∈ numericDigits s, d ≤ 9 := by
  intro d hd
  unfold numericDigits at hd
  rw [List.mem_flatten] at hd
  obtain ⟨l, hl, hdl⟩ := hd
  rw [List.mem_map] at hl
  obtain ⟨v, hv, rfl⟩ := hl
  rw [List.mem_filterMap] at hv
  obtain ⟨c, -, hc⟩ := hv
  have hv35 := digitMap_le c v hc
  unfold decDigits at hdl
  split_ifs at hdl with h10
  · simp only [List.mem_singleton] at hdl
    omega
  · simp only [List.mem_cons, List.mem_singleton] at hdl
    rcases hdl with rfl | rfl | hdl
    · omega
    · omega
    · cases hdl

theorem mod97ChunksChecked_eq (chunks : List (List Nat)) (r : Nat) (hr : r < 97)
    (h : ∀ c ∈ chunks, c ≠ [] ∧ c.length ≤ 9 ∧ ∀ d ∈ c, d ≤ 9) :
    mod97ChunksChecked chunks r = some (chunks.foldl mod97Step r) := by
  induction chunks generalizing r with
  | nil => simp [mod97ChunksChecked]
  | cons c cs ih =>
    obtain ⟨hne, h9, hd⟩ := h c (by simp)
    have h10 : (10 : Nat) ^ c.length ≤ 10 ^ 9 := Nat.pow_le_pow_right (by norm_num) h9
    have hv : digitsVal c < 10 ^ 9 := lt_of_lt_of_le (digitsVal_lt c hd) h10
    have hparse : parseChunk c = some (digitsVal c) := by
      unfold parseChunk
      rw [if_neg (by simpa using hne),
        if_pos (List.all_eq_true.mpr fun d hd' => by simpa using hd d hd'),
        if_pos (by calc digitsVal c < 10 ^ 9 := hv
                    _ < 2 ^ 128 := by norm_num)]
    have hstep : mod97StepChecked r c = some (mod97Step r c) := by
      unfold mod97StepChecked
      rw [hparse]
      have hrm : r * 10 ^ c.length ≤ 96 * 10 ^ 9 := Nat.mul_le_mul (by omega) h10
      have hb : (96 : Nat) * 10 ^ 9 + 10 ^ 9 < 2 ^ 128 := by norm_num
      show (if 10 ^ c.length < 2 ^ 128 ∧ r * 10 ^ c.length + digitsVal c < 2 ^ 128 then
          some ((r * 10 ^ c.length + digitsVal c) % 97) else none) = some (mod97Step r c)
      rw [if_pos ⟨lt_of_le_of_lt h10 (by norm_num), by omega⟩]
      rfl
    simp only [mod97ChunksChecked, hstep]
    exact ih _ (Nat.mod_lt _ (by norm_num)) (fun x hx => h x (by simp [hx]))

/-- C10: is_valid is total on every 34-slot buffer — including buffers
built through the trusted no-validation array constructor with non-ASCII
slots or interleaved padding. The panic-explicit model isValidChecked
(byte slicing, utf8 and parse unwraps, u128 arithmetic all guarded)
never returns none and agrees with the boolean isValid. -/
theorem isValid_total (b : IBAN) : b.isValidChecked = some b.isValid := by
  unfold IBAN.isValidChecked IBAN.isValid
  simp only []
  have hascii : ∀ c ∈ b.toString, isAsciiChar c = true :=
    fun c hc => (List.mem_filter.mp hc).2
  by_cases h4 : strByteLen b.toString < 4
  · rw [if_pos h4, if_pos h4]
  · rw [if_neg h4, if_neg h4]
    have hblen : strByteLen b.toString = b.toString.length := strByteLen_of_ascii _ hascii
    rw [takeToOffset_ascii _ 2 hascii (by omega), dropFromOffset_ascii _ 4 hascii (by omega),
      takeToOffset_ascii _ 4 hascii (by omega)]
    simp only []
    by_cases hbne : (some b.len != lookupLength (b.toString.take 2)) = true
    · rw [if_pos hbne, if_pos hbne]
    · rw [if_neg hbne, if_neg hbne]
      have hchunks : ∀ c ∈ chunks9 (numericDigits (b.toString.drop 4 ++ b.toString.take 4)),
          c ≠ [] ∧ c.length ≤ 9 ∧ ∀ d ∈ c, d ≤ 9 := by
        intro c hc
        obtain ⟨hne, h9⟩ := chunks9_mem _ c hc
        refine ⟨hne, h9, fun d hdc => ?_⟩
        have : d ∈ numericDigits (b.toString.drop 4 ++ b.toString.take 4) := by
          rw [← chunks9_flatten (numericDigits (b.toString.drop 4 ++ b.toString.take 4))]
          exact List.mem_flatten.mpr ⟨c, hc, hdc⟩
        exact numericDigits_le _ d this
      rw [mod97ChunksChecked_eq _ 0 (by norm_num) hchunks]
      rfl

theorem isValid_total_witness :
    IBAN.new.isValidChecked = some IBAN.new.isValid := isValid_total IBAN.new
